import Mathlib

/-!
# Verification development for the flashcards quiz/agent service

Shallow embedding of the Go services in this repository:

* `services/noteService.go` — note search (`SearchNotesByContent`,
  `noteMatchesSearch`, `calculateMaxDistance`) together with the relevant part
  of the `lithammer/fuzzysearch` library (`fuzzy.RankMatchFold`).
* `services/quizService.go` / `services/quiz/*.go` — the structured-decision
  steps (`ConfigureQuiz`, `RankNotes`, `ConductQuiz`, `ConductQuizV2`) and
  `GetContentForTopics`.
* `services/agent/service.go` — the agent orchestrator (`ProcessMessage`,
  `executeTool`).
* `services/quizStoreService.go` — `CreateQuiz` / `validateCreateRequest`.

Go strings are modelled as `List Char` (one entry per rune; the sources only
deal with ASCII data, where Go's byte length and rune length agree) or as Lean
`String` where only concatenation matters.  LLM provider calls are modelled by
passing the provider's response as an explicit argument; repository and
vector-index collaborators are passed as function arguments.  `float64` scores
are modelled as `ℚ`.  Go `error` values are modelled by the inductive `GoErr`,
one constructor per distinct `fmt.Errorf` call site used here.
-/

namespace Flashcards

open List

/-- Model of a decoded JSON value (the contents of a tool call's `Arguments`
string after `json.Unmarshal` of the raw text succeeded syntactically). -/
inductive Json where
  | null : Json
  | bool (b : Bool) : Json
  | num (q : ℚ) : Json
  | str (s : String) : Json
  | arr (elems : List Json) : Json
  | obj (fields : List (String × Json)) : Json

/-- Go `models.Note` (`id`, `content`); `content` is kept as a rune list. -/
structure Note where
  id : Int
  content : List Char
  deriving DecidableEq, Repr

/-- Lower-casing a Go string (`strings.ToLower`), rune by rune. -/
def goToLower (s : List Char) : List Char := s.map Char.toLower

/-- Go `strings.Fields`: split around runs of white space, dropping empty
segments. -/
def goFields (s : List Char) : List (List Char) :=
  (s.splitOnP (fun c => c.isWhitespace)).filter (fun w => w ≠ [])

/-- The punctuation cutset `".,!?;:()[]{}\"'-"` used by `noteMatchesSearch`. -/
def punctCutset : List Char :=
  ['.', ',', '!', '?', ';', ':', '(', ')', '[', ']', '\x7b', '\x7d', '\"', '\x27', '-']

/-- Go `strings.Trim(w, cutset)`: remove leading and trailing cutset runes. -/
def goTrim (cutset : List Char) (w : List Char) : List Char :=
  ((w.dropWhile (fun c => cutset.contains c)).reverse.dropWhile
    (fun c => cutset.contains c)).reverse

/-- Go `strings.TrimSpace`. -/
def goTrimSpace (s : List Char) : List Char :=
  ((s.dropWhile (fun c => c.isWhitespace)).reverse.dropWhile
    (fun c => c.isWhitespace)).reverse

/-- Go `fuzzysearch`: scan `target` for the first occurrence of `r1`, counting the
skipped runes on top of `acc`; returns the remaining target and the new count
(the inner `for i, r2 := range target` loop of `rank`). -/
def findSkip (r1 : Char) : List Char → Nat → Option (List Char × Nat)
  | [], _ => none
  | r2 :: rest, acc => if r1 = r2 then some (rest, acc) else findSkip r1 rest (acc + 1)

/-- Go `fuzzysearch`: the `Outer` loop of `rank`, after the transformer has been
applied: match `source` as an in-order subsequence of `target`, accumulating
the number of skipped target runes; `-1` when some source rune is missing. -/
def rankLoop : List Char → List Char → Nat → Int
  | [], target, acc => Int.ofNat (acc + target.length)
  | r1 :: src, target, acc =>
    match findSkip r1 target acc with
    | none => -1
    | some (rest, acc') => rankLoop src rest acc'

/-- Go `fuzzy.RankMatchFold(source, target)` from `lithammer/fuzzysearch`:
length precheck and raw-equality shortcut, then the fold-transformed
subsequence scan. -/
def rankMatchFold (source target : List Char) : Int :=
  if target.length < source.length then -1
  else if target.length = source.length ∧ source = target then 0
  else rankLoop (goToLower source) (goToLower target) 0

/-- Go `(*NoteService).calculateMaxDistance` (`noteService.go`): length-banded
acceptance threshold. -/
def calculateMaxDistance (term : List Char) : Nat :=
  if term.length ≤ 4 then 1
  else if term.length ≤ 7 then 2
  else 3

/-- The fuzzy branch of `noteMatchesSearch` for one (already lower-cased) term
and one clean word: `distance != -1 && distance <= maxDistance`. -/
def fuzzyWordAccept (termLower word : List Char) : Bool :=
  let distance := rankMatchFold termLower word
  if distance ≠ -1 then
    if distance ≤ (calculateMaxDistance termLower : Int) then true else false
  else false

/-- The clean-word list of `noteMatchesSearch`: fields of the (lower-cased)
content, trimmed of punctuation, keeping only words longer than 2 runes. -/
def cleanWordsOf (contentLower : List Char) : List (List Char) :=
  ((goFields contentLower).map (goTrim punctCutset)).filter (fun w => 2 < w.length)

/-- One iteration of the `for _, term := range searchTerms` loop of
`noteMatchesSearch`: exact substring match on the whole content, otherwise the
fuzzy scan over the clean words. -/
def termMatchesNote (term : List Char) (note : Note) : Bool :=
  let contentLower := goToLower note.content
  let termLower := goToLower term
  if termLower <:+: contentLower then true
  else (cleanWordsOf contentLower).any (fun w => fuzzyWordAccept termLower w)

/-- Go `(*NoteService).noteMatchesSearch` (`noteService.go`): true as soon as any
search term matches. -/
def noteMatchesSearch (note : Note) (searchTerms : List (List Char)) : Bool :=
  searchTerms.any (fun term => termMatchesNote term note)

/-- Go `(*NoteService).SearchNotesByContent` (`noteService.go`); the repository's
notes are the `notes` argument. -/
def searchNotesByContent (notes : List Note) (searchTerms : List (List Char)) :
    List Note :=
  if searchTerms = [] then notes
  else notes.filter (fun note => noteMatchesSearch note searchTerms)

/-! ## Characterisation of the fuzzysearch scan -/

theorem findSkip_eq_none {r1 : Char} {l : List Char} {acc : Nat}
    (h : findSkip r1 l acc = none) : r1 ∉ l := by
  induction l generalizing acc with
  | nil => simp
  | cons r2 rest ih =>
    simp only [findSkip] at h
    split at h
    · simp at h
    · next hne =>
      simp only [List.mem_cons]
      rintro (rfl | hmem)
      · exact hne rfl
      · exact ih h hmem

theorem findSkip_eq_some {r1 : Char} {l rest : List Char} {acc acc' : Nat}
    (h : findSkip r1 l acc = some (rest, acc')) :
    ∃ pre, l = pre ++ r1 :: rest ∧ r1 ∉ pre ∧ acc' = acc + pre.length := by
  induction l generalizing acc with
  | nil => simp [findSkip] at h
  | cons r2 tl ih =>
    simp only [findSkip] at h
    split at h
    · next heq =>
      rw [Option.some.injEq, Prod.mk.injEq] at h
      obtain ⟨rfl, rfl⟩ := h
      exact ⟨[], by simp [heq]⟩
    · next hne =>
      obtain ⟨pre, rfl, hpre, rfl⟩ := ih h
      refine ⟨r2 :: pre, rfl, ?_, by simp only [List.length_cons]; omega⟩
      simp only [List.mem_cons, not_or]
      exact ⟨fun hh => hne hh, hpre⟩

theorem sublist_tail_of_cons_sublist {c : Char} {cs rest : List Char} :
    ∀ pre : List Char, c ∉ pre → c :: cs <+ pre ++ c :: rest → cs <+ rest := by
  intro pre
  induction pre with
  | nil =>
    intro _ h
    simp only [List.nil_append] at h
    cases h with
    | cons _ h' => exact (List.sublist_cons_self c cs).trans h'
    | cons₂ _ h' => exact h'
  | cons p ps ih =>
    intro hnot h
    simp only [List.mem_cons, not_or] at hnot
    simp only [List.cons_append] at h
    cases h with
    | cons _ h' => exact ih hnot.2 h'
    | cons₂ _ _ => exact absurd rfl hnot.1

theorem rankLoop_eq_neg_iff (src : List Char) :
    ∀ (tgt : List Char) (acc : Nat), rankLoop src tgt acc = -1 ↔ ¬ src <+ tgt := by
  induction src with
  | nil =>
    intro tgt acc
    simp only [rankLoop, List.nil_sublist, not_true, iff_false, Int.ofNat_eq_natCast]
    omega
  | cons c cs ih =>
    intro tgt acc
    simp only [rankLoop]
    constructor
    · intro h hsub
      cases hfs : findSkip c tgt acc with
      | none =>
        exact findSkip_eq_none hfs (hsub.subset (by simp))
      | some p =>
        obtain ⟨rest, acc'⟩ := p
        rw [hfs] at h
        obtain ⟨pre, rfl, hpre, rfl⟩ := findSkip_eq_some hfs
        exact ((ih rest _).mp h) (sublist_tail_of_cons_sublist pre hpre hsub)
    · intro hns
      cases hfs : findSkip c tgt acc with
      | none => rfl
      | some p =>
        obtain ⟨rest, acc'⟩ := p
        obtain ⟨pre, rfl, hpre, rfl⟩ := findSkip_eq_some hfs
        rw [(ih rest _)]
        intro hsub
        exact hns ((List.Sublist.cons₂ c hsub).trans (List.sublist_append_right pre _))

theorem rankLoop_eq_of_sublist {src : List Char} :
    ∀ {tgt : List Char} (acc : Nat), src <+ tgt →
      rankLoop src tgt acc = Int.ofNat (acc + (tgt.length - src.length)) := by
  induction src with
  | nil => intro tgt acc _; simp [rankLoop]
  | cons c cs ih =>
    intro tgt acc hsub
    simp only [rankLoop]
    cases hfs : findSkip c tgt acc with
    | none => exact absurd (hsub.subset (by simp)) (findSkip_eq_none hfs)
    | some p =>
      obtain ⟨rest, acc'⟩ := p
      obtain ⟨pre, rfl, hpre, rfl⟩ := findSkip_eq_some hfs
      have hcs : cs <+ rest := sublist_tail_of_cons_sublist pre hpre hsub
      have hlen : cs.length ≤ rest.length := hcs.length_le
      dsimp only
      rw [ih _ hcs]
      congr 1
      simp only [List.length_append, List.length_cons]
      omega

theorem rankMatchFold_eq (source target : List Char) :
    rankMatchFold source target =
      if goToLower source <+ goToLower target then
        Int.ofNat (target.length - source.length)
      else -1 := by
  unfold rankMatchFold
  split
  · next hlt =>
    rw [if_neg]
    intro hsub
    have := hsub.length_le
    simp only [goToLower, List.length_map] at this
    omega
  · next hge =>
    split
    · next heq =>
      obtain ⟨hlen, rfl⟩ := heq
      rw [if_pos (List.Sublist.refl _)]
      simp
    · next hne =>
      by_cases hsub : goToLower source <+ goToLower target
      · rw [if_pos hsub, rankLoop_eq_of_sublist 0 hsub]
        simp [goToLower]
      · rw [if_neg hsub, (rankLoop_eq_neg_iff _ _ _).mpr hsub]

/-! ## Levenshtein distance facts needed for the fuzzy-matcher claim -/

theorem levenshtein_nil_eq (t : List Char) :
    levenshtein Levenshtein.defaultCost ([] : List Char) t = t.length := by
  induction t with
  | nil => simp [levenshtein_nil_nil]
  | cons y ys ih =>
    simp only [levenshtein_nil_cons, ih, Levenshtein.defaultCost_insert, List.length_cons]
    omega

theorem length_le_levenshtein_add (s : List Char) :
    ∀ t : List Char, t.length ≤ s.length + levenshtein Levenshtein.defaultCost s t := by
  induction s with
  | nil => intro t; simp [levenshtein_nil_eq]
  | cons x xs ihs =>
    intro t
    induction t with
    | nil => simp
    | cons y ys iht =>
      rw [levenshtein_cons_cons]
      have h1 := ihs (y :: ys)
      have h2 := ihs ys
      simp only [Levenshtein.defaultCost_delete, Levenshtein.defaultCost_insert,
        Levenshtein.defaultCost_substitute, List.length_cons] at h1 h2 iht ⊢
      by_cases hxy : x = y
      · simp only [if_pos hxy]; omega
      · simp only [if_neg hxy]; omega

theorem levenshtein_le_of_sublist :
    ∀ (t s : List Char), s <+ t →
      levenshtein Levenshtein.defaultCost s t + s.length ≤ t.length := by
  intro t
  induction t with
  | nil =>
    intro s hs
    cases (List.sublist_nil.mp hs)
    simp [levenshtein_nil_nil]
  | cons y ys ih =>
    intro s hs
    cases s with
    | nil => simp only [levenshtein_nil_eq, List.length_nil, List.length_cons]; omega
    | cons x xs =>
      cases hs with
      | cons₂ _ h' =>
        have hih := ih xs h'
        rw [levenshtein_cons_cons]
        simp only [Levenshtein.defaultCost_delete, Levenshtein.defaultCost_insert,
          Levenshtein.defaultCost_substitute, eq_self_iff_true, if_true,
          List.length_cons] at hih ⊢
        omega
      | cons _ h' =>
        have hxxs := ih (x :: xs) h'
        have hxs : xs <+ ys := (List.sublist_cons_self x xs).trans h'
        have hxs' := ih xs hxs
        rw [levenshtein_cons_cons]
        simp only [Levenshtein.defaultCost_delete, Levenshtein.defaultCost_insert,
          Levenshtein.defaultCost_substitute, List.length_cons] at hxxs hxs' ⊢
        by_cases hxy : x = y
        · simp only [if_pos hxy]; omega
        · simp only [if_neg hxy]; omega

theorem levenshtein_eq_of_sublist {s t : List Char} (h : s <+ t) :
    levenshtein Levenshtein.defaultCost s t = t.length - s.length := by
  have h1 := levenshtein_le_of_sublist t s h
  have h2 := length_le_levenshtein_add s t
  omega

/-- C2, counterexample.  The claim states that the fuzzy branch accepts a
(term, clean word) pair exactly when their edit distance is within the
length-banded threshold.  For term `"abcd"` and word `"abce"` the Levenshtein
distance is 1 and the threshold for a length-4 term is 1, yet the code rejects
the pair: `fuzzy.RankMatchFold` returns `-1` because `"abcd"` is not an
in-order subsequence of `"abce"`.  Consequently `noteMatchesSearch` rejects a
note whose content is `"abce"` when searched for `"abcd"`. -/
theorem fuzzy_accept_iff_edit_distance_cex :
    ¬ (fuzzyWordAccept ['a', 'b', 'c', 'd'] ['a', 'b', 'c', 'e'] = true ↔
        levenshtein Levenshtein.defaultCost ['a', 'b', 'c', 'd'] ['a', 'b', 'c', 'e'] ≤
          calculateMaxDistance ['a', 'b', 'c', 'd']) ∧
      noteMatchesSearch ⟨1, ['a', 'b', 'c', 'e']⟩ [['a', 'b', 'c', 'd']] = false := by
  constructor
  · decide
  · decide

/-- C2, amended.  The fuzzy branch of `noteMatchesSearch` accepts a (term,
clean word) pair iff the case-folded term is an in-order subsequence of the
case-folded word **and** their Levenshtein distance (which then equals the
length difference) is at most the length-banded threshold: ≤ 1 for term length
≤ 4, ≤ 2 for length 5–7, ≤ 3 for length > 7. -/
theorem fuzzyWordAccept_iff_subseq_within_threshold (term word : List Char) :
    fuzzyWordAccept term word = true ↔
      (goToLower term <+ goToLower word ∧
        levenshtein Levenshtein.defaultCost (goToLower term) (goToLower word) ≤
          calculateMaxDistance term) := by
  simp only [fuzzyWordAccept, rankMatchFold_eq]
  by_cases hsub : goToLower term <+ goToLower word
  · have hlev : levenshtein Levenshtein.defaultCost (goToLower term) (goToLower word) =
        word.length - term.length := by
      rw [levenshtein_eq_of_sublist hsub]
      simp [goToLower]
    have hlt : term.length ≤ word.length := by
      have := hsub.length_le
      simpa [goToLower] using this
    rw [if_pos hsub]
    have h1 : ¬ (Int.ofNat (word.length - term.length) = -1) := by
      simp only [Int.ofNat_eq_natCast]
      omega
    simp only [ne_eq, h1, not_false_eq_true, if_true]
    constructor
    · intro h
      refine ⟨hsub, ?_⟩
      rw [hlev]
      by_contra hgt
      rw [if_neg ?_] at h
      · exact Bool.false_ne_true h
      · simp only [Int.ofNat_eq_natCast]
        exact_mod_cast hgt
    · rintro ⟨-, hle⟩
      rw [hlev] at hle
      rw [if_pos ?_]
      simp only [Int.ofNat_eq_natCast]
      exact_mod_cast hle
  · rw [if_neg hsub]
    simp [hsub]

/-! ## Search semantics -/

theorem termMatchesNote_iff (term : List Char) (note : Note) :
    termMatchesNote term note = true ↔
      (goToLower term <:+: goToLower note.content ∨
        ∃ w ∈ cleanWordsOf (goToLower note.content),
          fuzzyWordAccept (goToLower term) w = true) := by
  simp only [termMatchesNote]
  split
  · next h => simp [h]
  · next h => simp [h, List.any_eq_true]

theorem noteMatchesSearch_iff (note : Note) (terms : List (List Char)) :
    noteMatchesSearch note terms = true ↔
      ∃ t ∈ terms,
        (goToLower t <:+: goToLower note.content ∨
          ∃ w ∈ cleanWordsOf (goToLower note.content),
            fuzzyWordAccept (goToLower t) w = true) := by
  simp only [noteMatchesSearch, List.any_eq_true]
  constructor
  · rintro ⟨t, ht, hm⟩
    exact ⟨t, ht, (termMatchesNote_iff t note).mp hm⟩
  · rintro ⟨t, ht, hm⟩
    exact ⟨t, ht, (termMatchesNote_iff t note).mpr hm⟩

/-- C8.  `SearchNotesByContent` with an empty term list returns every note of
the store unfiltered; with a non-empty term list it returns exactly the notes
for which at least one term matches (by exact lower-cased substring or by the
fuzzy word scan), and in particular the empty list when no note matches any
term. -/
theorem searchNotesByContent_semantics (notes : List Note) (terms : List (List Char)) :
    searchNotesByContent notes [] = notes ∧
      (terms ≠ [] → ∀ n : Note,
        n ∈ searchNotesByContent notes terms ↔
          (n ∈ notes ∧ ∃ t ∈ terms,
            (goToLower t <:+: goToLower n.content ∨
              ∃ w ∈ cleanWordsOf (goToLower n.content),
                fuzzyWordAccept (goToLower t) w = true))) ∧
      (terms ≠ [] →
        (∀ n ∈ notes, ¬ ∃ t ∈ terms,
          (goToLower t <:+: goToLower n.content ∨
            ∃ w ∈ cleanWordsOf (goToLower n.content),
              fuzzyWordAccept (goToLower t) w = true)) →
        searchNotesByContent notes terms = []) := by
  refine ⟨by simp [searchNotesByContent], ?_, ?_⟩
  · intro hne n
    rw [searchNotesByContent, if_neg hne, List.mem_filter]
    rw [noteMatchesSearch_iff]
  · intro hne hnone
    rw [searchNotesByContent, if_neg hne]
    rw [List.filter_eq_nil_iff]
    intro n hn
    rw [noteMatchesSearch_iff]
    exact hnone n hn

/-- C8, witness: a one-note store searched for `"blockchain"` (which matches
nothing) yields the empty list. -/
theorem searchNotesByContent_semantics_witness :
    (["blockchain".data] : List (List Char)) ≠ [] ∧
      searchNotesByContent [⟨1, "hello world".data⟩] ["blockchain".data] = [] :=
  ⟨by decide,
    (searchNotesByContent_semantics [⟨1, "hello world".data⟩]
      ["blockchain".data]).2.2 (by decide) (by decide)⟩

/-! ## Go error values

Each constructor corresponds to one `fmt.Errorf` call site of the embedded
functions (the Go message text is given in the comment). -/

inductive GoErr where
  /-- Message "at least one note ID is required" -/
  | atLeastOneNoteID
  /-- Message "at least one topic is required" (quiz conduct/rank and quiz store) -/
  | atLeastOneTopic
  /-- Message "note IDs not found: %v" — carries the missing ids -/
  | noteIDsNotFound (missing : List Int)
  /-- wrapped provider error ("failed to generate … response: %w") -/
  | providerFailed (msg : String)
  /-- Message "no tool calls in LLM … response" -/
  | noToolCalls
  /-- Message "unexpected function call: %s" (`RankNotes`) -/
  | unexpectedFunctionCall (name : String)
  /-- Message "unknown function call: %s" (`ConfigureQuiz` / `ConductQuiz` default) -/
  | unknownFunctionCall (name : String)
  /-- Message "failed to parse … arguments: %w" for the named decision -/
  | parseArgsFailed (fn : String)
  /-- Message "no content available for topics: %v" (`ConductQuizV2`) -/
  | noContentForTopics (topics : List String)
  /-- Message "request cannot be nil" (`validateCreateRequest`) -/
  | requestNil
  /-- Message "question count must be greater than 0" -/
  | questionCountNonPositive
  /-- Message "question count cannot exceed 5" -/
  | questionCountTooLarge
  /-- Message "topic %d cannot be empty" — carries the 1-based index -/
  | emptyTopic (idx : Nat)
  /-- wrapped document-index error ("failed to generate LLM context: %w") -/
  | docindexFailed (msg : String)
  /-- wrapped repository error ("failed to create quiz: %w") -/
  | repoFailed (msg : String)
  deriving DecidableEq, Repr

/-! ## Tool-call decoding (langchaingo response plus `encoding/json`)

A provider response is `llms.ContentResponse` restricted to the fields these
functions read: the tool calls of the first choice.  A tool call's `Arguments`
is the raw JSON text; `none` models text that is not syntactically valid JSON
(so every `json.Unmarshal` of it fails), `some j` the decoded value. -/

/-- Go `llms.ToolCall` restricted to `FunctionCall.Name` / `FunctionCall.Arguments`. -/
structure ChatToolCall where
  name : String
  args : Option Json

/-- One `llms.ContentChoice`, restricted to `ToolCalls`. -/
structure ContentChoice where
  toolCalls : List ChatToolCall

/-- Go `llms.ContentResponse`, restricted to `Choices`. -/
structure ContentResponse where
  choices : List ContentChoice

/-- The tool call the services act on: `resp.Choices[0].ToolCalls[0]`, guarded
by `len(resp.Choices) == 0 || len(resp.Choices[0].ToolCalls) == 0`. -/
def firstToolCall (resp : ContentResponse) : Option ChatToolCall :=
  match resp.choices with
  | [] => none
  | choice :: _ =>
    match choice.toolCalls with
    | [] => none
    | tc :: _ => some tc

/-- Go JSON object field lookup: later duplicate keys overwrite earlier ones. -/
def jsonLookup (fields : List (String × Json)) (key : String) : Option Json :=
  fields.foldl (fun acc p => if p.1 = key then some p.2 else acc) none

/-- Decode a Go `string` struct field: absent or `null` leaves the zero value
`""`; any non-string value is an unmarshalling error. -/
def decodeStringField (fn : String) : Option Json → Except GoErr String
  | none => .ok ""
  | some .null => .ok ""
  | some (.str s) => .ok s
  | some _ => .error (.parseArgsFailed fn)

/-- Decode a Go `int` struct field: absent or `null` leaves `0`; a number is
accepted when integral; anything else is an error. -/
def decodeIntField (fn : String) : Option Json → Except GoErr Int
  | none => .ok 0
  | some .null => .ok 0
  | some (.num q) => if q.den = 1 then .ok q.num else .error (.parseArgsFailed fn)
  | some _ => .error (.parseArgsFailed fn)

/-- Decode a Go `float64` struct field. -/
def decodeNumField (fn : String) : Option Json → Except GoErr ℚ
  | none => .ok 0
  | some .null => .ok 0
  | some (.num q) => .ok q
  | some _ => .error (.parseArgsFailed fn)

/-- Decode a Go `bool` struct field. -/
def decodeBoolField (fn : String) : Option Json → Except GoErr Bool
  | none => .ok false
  | some .null => .ok false
  | some (.bool b) => .ok b
  | some _ => .error (.parseArgsFailed fn)

/-- Decode one element of a Go `[]string`. -/
def decodeStringElem (fn : String) : Json → Except GoErr String
  | .null => .ok ""
  | .str s => .ok s
  | _ => .error (.parseArgsFailed fn)

/-- Decode a Go `[]string` struct field: absent or `null` leaves `nil`. -/
def decodeStringListField (fn : String) : Option Json → Except GoErr (List String)
  | none => .ok []
  | some .null => .ok []
  | some (.arr elems) => elems.mapM (decodeStringElem fn)
  | some _ => .error (.parseArgsFailed fn)

/-- Go `ContinueInterviewParams` / `ContinueQuizParams` (`{message string}`). -/
structure MessageParams where
  message : String
  deriving DecidableEq, Repr

/-- Go `FinalizeConfigParams` (`question_count`, `topics`, `reasoning`). -/
structure FinalizeConfigParams where
  questionCount : Int
  topics : List String
  reasoning : String
  deriving DecidableEq, Repr

/-- Go `NoteRanking` (`note_id`, `score`). -/
structure NoteRanking where
  noteID : Int
  score : ℚ
  deriving DecidableEq, Repr

/-- Go `RankNotesParams` (`rankings`). -/
structure RankNotesParams where
  rankings : List NoteRanking
  deriving DecidableEq, Repr

/-- Go `EvaluateAnswerParams` of package `quiz` (`is_correct`, `feedback`,
`correct_answer`, `encouragement`). -/
structure EvaluateAnswerParams where
  isCorrect : Bool
  feedback : String
  correctAnswer : String
  encouragement : String
  deriving DecidableEq, Repr

/-- Go `json.Unmarshal` into `ContinueInterviewParams`/`ContinueQuizParams`. -/
def parseMessageParams (fn : String) : Option Json → Except GoErr MessageParams
  | none => .error (.parseArgsFailed fn)
  | some .null => .ok ⟨""⟩
  | some (.obj fields) => do
    let m ← decodeStringField fn (jsonLookup fields "message")
    .ok ⟨m⟩
  | some _ => .error (.parseArgsFailed fn)

/-- Go `json.Unmarshal` into `FinalizeConfigParams`. -/
def parseFinalizeConfigParams : Option Json → Except GoErr FinalizeConfigParams
  | none => .error (.parseArgsFailed "finalize_quiz_config")
  | some .null => .ok ⟨0, [], ""⟩
  | some (.obj fields) => do
    let qc ← decodeIntField "finalize_quiz_config" (jsonLookup fields "question_count")
    let topics ← decodeStringListField "finalize_quiz_config" (jsonLookup fields "topics")
    let reasoning ← decodeStringField "finalize_quiz_config" (jsonLookup fields "reasoning")
    .ok ⟨qc, topics, reasoning⟩
  | some _ => .error (.parseArgsFailed "finalize_quiz_config")

/-- Go `json.Unmarshal` of one `NoteRanking` array element. -/
def decodeNoteRanking : Json → Except GoErr NoteRanking
  | .null => .ok ⟨0, 0⟩
  | .obj fields => do
    let nid ← decodeIntField "rank_notes" (jsonLookup fields "note_id")
    let score ← decodeNumField "rank_notes" (jsonLookup fields "score")
    .ok ⟨nid, score⟩
  | _ => .error (.parseArgsFailed "rank_notes")

/-- Go `json.Unmarshal` into `RankNotesParams`. -/
def parseRankNotesParams : Option Json → Except GoErr RankNotesParams
  | none => .error (.parseArgsFailed "rank_notes")
  | some .null => .ok ⟨[]⟩
  | some (.obj fields) =>
    match jsonLookup fields "rankings" with
    | none => .ok ⟨[]⟩
    | some .null => .ok ⟨[]⟩
    | some (.arr elems) => do
      let rankings ← elems.mapM decodeNoteRanking
      .ok ⟨rankings⟩
    | some _ => .error (.parseArgsFailed "rank_notes")
  | some _ => .error (.parseArgsFailed "rank_notes")

/-- Go `json.Unmarshal` into `EvaluateAnswerParams`. -/
def parseEvaluateAnswerParams : Option Json → Except GoErr EvaluateAnswerParams
  | none => .error (.parseArgsFailed "evaluate_answer")
  | some .null => .ok ⟨false, "", "", ""⟩
  | some (.obj fields) => do
    let c ← decodeBoolField "evaluate_answer" (jsonLookup fields "is_correct")
    let f ← decodeStringField "evaluate_answer" (jsonLookup fields "feedback")
    let ca ← decodeStringField "evaluate_answer" (jsonLookup fields "correct_answer")
    let enc ← decodeStringField "evaluate_answer" (jsonLookup fields "encouragement")
    .ok ⟨c, f, ca, enc⟩
  | some _ => .error (.parseArgsFailed "evaluate_answer")

/-! ## Quiz data model (`models/quiz.go`) -/

/-- Go `models.Message`. -/
structure Message where
  role : String
  content : String
  deriving DecidableEq, Repr

/-- Go `models.QuizConfiguration`. -/
structure QuizConfiguration where
  noteIDs : List Int
  questionCount : Int
  topic : String
  deriving DecidableEq, Repr

/-- Go `models.QuizConfigResponse` (`Config == nil` is `none`). -/
structure QuizConfigResponse where
  type : String
  message : String
  config : Option QuizConfiguration
  deriving DecidableEq, Repr

/-- Go `models.RankedNote`. -/
structure RankedNote where
  noteID : Int
  score : ℚ
  deriving DecidableEq, Repr

/-- Go `models.NoteRankResponse`. -/
structure NoteRankResponse where
  rankedNotes : List RankedNote
  deriving DecidableEq, Repr

/-- Go `models.QuizEvaluation`. -/
structure QuizEvaluation where
  correct : Bool
  feedback : String
  deriving DecidableEq, Repr

/-- Go `models.QuizConductResponse` and (same shape) `models.QuizV2ConductResponse`. -/
structure QuizConductResponse where
  type : String
  message : String
  evaluation : Option QuizEvaluation
  deriving DecidableEq, Repr

/-- Go `models.QuizV2Configuration`. -/
structure QuizV2Configuration where
  questionCount : Int
  topics : List String
  deriving DecidableEq, Repr

/-! ## Structured-decision services (`quizService.go`, `services/quiz`) -/

/-- Go `strings.Join(topics, ", ")`. -/
def joinComma (topics : List String) : String := String.intercalate ", " topics

/-- The clarification message `ConfigureQuiz` synthesises when no note matches
the finalised topics. -/
def noNotesFoundMessage (topics : List String) : String :=
  "I couldn\x27t find any notes about " ++ joinComma topics ++
    ". Could you specify different topics or be more specific about what you\x27d like to study?"

/-- Go `(*QuizService).ConfigureQuiz` (`quizService.go`): the provider call is
modelled by passing its outcome `resp`; the note store backs
`SearchNotesByContent`.  The `messages` argument only feeds the prompt, which
is part of the provider call, so it does not appear here. -/
def configureQuiz (notes : List Note) (resp : Except String ContentResponse) :
    Except GoErr QuizConfigResponse :=
  match resp with
  | .error e => .error (.providerFailed e)
  | .ok r =>
    match firstToolCall r with
    | none => .error .noToolCalls
    | some tc =>
      if tc.name = "continue_interview" then do
        let params ← parseMessageParams "continue_interview" tc.args
        .ok ⟨"continue", params.message, none⟩
      else if tc.name = "finalize_quiz_config" then do
        let params ← parseFinalizeConfigParams tc.args
        let matchingNotes := searchNotesByContent notes (params.topics.map String.data)
        if matchingNotes = [] then
          .ok ⟨"continue", noNotesFoundMessage params.topics, none⟩
        else
          .ok ⟨"configure", params.reasoning,
            some ⟨matchingNotes.map Note.id, params.questionCount, joinComma params.topics⟩⟩
      else .error (.unknownFunctionCall tc.name)

/-- The ids requested but absent from the store
(`missingIDs` in `RankNotes`/`ConductQuiz`). -/
def missingNoteIDs (notes : List Note) (noteIDs : List Int) : List Int :=
  let foundIDs := (notes.filter (fun n => noteIDs.contains n.id)).map Note.id
  noteIDs.filter (fun i => ¬ foundIDs.contains i)

/-- Descending insertion by score, modelling
`slices.SortFunc(rankedNotes, …)` with the score-descending comparator (Go's
`SortFunc` does not fix the order of ties; this model keeps ties stable). -/
def insertByScoreDesc (x : RankedNote) : List RankedNote → List RankedNote
  | [] => [x]
  | y :: ys => if x.score ≤ y.score then y :: insertByScoreDesc x ys else x :: y :: ys

/-- Sort rankings by score, highest first. -/
def sortByScoreDesc (l : List RankedNote) : List RankedNote :=
  l.foldr insertByScoreDesc []

/-- Go `(*QuizService).RankNotes` (`quizService.go`; identical logic in
`services/quiz/rankNotes.go`): validate inputs, check the requested ids
against the note store, then map and sort whatever rankings the provider
returned. -/
def rankNotes (notes : List Note) (noteIDs : List Int) (topics : List String)
    (resp : Except String ContentResponse) : Except GoErr NoteRankResponse :=
  if noteIDs = [] then .error .atLeastOneNoteID
  else if topics = [] then .error .atLeastOneTopic
  else
    let targetNotes := notes.filter (fun n => noteIDs.contains n.id)
    if targetNotes.length ≠ noteIDs.length then
      .error (.noteIDsNotFound (missingNoteIDs notes noteIDs))
    else
      match resp with
      | .error e => .error (.providerFailed e)
      | .ok r =>
        match firstToolCall r with
        | none => .error .noToolCalls
        | some tc =>
          if tc.name ≠ "rank_notes" then .error (.unexpectedFunctionCall tc.name)
          else do
            let params ← parseRankNotesParams tc.args
            let rankedNotes := params.rankings.map fun rk =>
              RankedNote.mk rk.noteID rk.score
            .ok ⟨sortByScoreDesc rankedNotes⟩

/-- Go `buildConductQuizPrompt` (`services/quiz/conductQuiz.go`). -/
def buildConductQuizPrompt (notes : List Note) (topics : List String)
    (messages : List Message) : String :=
  (if messages.length = 0 then
    "Generate one thoughtful quiz question based on the following study materials" ++
      (if 0 < topics.length then " focusing on: " ++ joinComma topics else "") ++ ".\n\n"
  else
    "Continue the quiz conversation based on the study materials and conversation history" ++
      (if 0 < topics.length then " (topics: " ++ joinComma topics ++ ")" else "") ++ ".\n\n")
  ++ "Study Materials:\n"
  ++ String.join (notes.map fun n => "- " ++ n.content.asString ++ "\n")
  ++ (if 0 < messages.length then
        "\nConversation History:\n" ++
          String.join (messages.map fun m => m.role ++ ": " ++ m.content ++ "\n")
      else "")

/-- The `switch toolCall.FunctionCall.Name` of `ConductQuiz` (and of
`ConductQuizV2`, which has the identical decision set and result mapping). -/
def conductDecision (tc : ChatToolCall) : Except GoErr QuizConductResponse :=
  if tc.name = "continue_quiz" then do
    let params ← parseMessageParams "continue_quiz" tc.args
    .ok ⟨"continue", params.message, none⟩
  else if tc.name = "evaluate_answer" then do
    let params ← parseEvaluateAnswerParams tc.args
    .ok ⟨"evaluate", params.feedback, some ⟨params.isCorrect, params.feedback⟩⟩
  else .error (.unknownFunctionCall tc.name)

/-- Go `(*Service).ConductQuiz` (`services/quiz/conductQuiz.go`). -/
def conductQuiz (notes : List Note) (noteIDs : List Int) (topics : List String)
    (messages : List Message) (resp : Except String ContentResponse) :
    Except GoErr QuizConductResponse :=
  if noteIDs = [] then .error .atLeastOneNoteID
  else if topics = [] then .error .atLeastOneTopic
  else
    let targetNotes := notes.filter (fun n => noteIDs.contains n.id)
    if targetNotes.length ≠ noteIDs.length then
      .error (.noteIDsNotFound (missingNoteIDs notes noteIDs))
    else
      match resp with
      | .error e => .error (.providerFailed e)
      | .ok r =>
        match firstToolCall r with
        | none => .error .noToolCalls
        | some tc => conductDecision tc

/-! ## Hard-coded study content (`GetContentForTopics`)

The Go map is modelled as an association list in the source's textual order;
map iteration order only permutes the collected chunks, which none of the
claims depend on.  `rand.Intn(i+1)` inside `shuffleStrings` is modelled by a
caller-supplied function `g`, reduced modulo `i+1` to respect `Intn`'s
contract. -/

def hardcodedContent : List (String × List String) :=
  [("database",
    ["Database indexing is crucial for query performance. B-tree indexes are most common, providing O(log n) lookup time. However, they add overhead to write operations as indexes must be maintained during INSERT, UPDATE, and DELETE operations.",
     "Database normalization reduces data redundancy by organizing data into related tables. First Normal Form (1NF) eliminates repeating groups, Second Normal Form (2NF) removes partial dependencies, and Third Normal Form (3NF) eliminates transitive dependencies.",
     "ACID properties ensure database transaction reliability: Atomicity (all or nothing), Consistency (valid state transitions), Isolation (concurrent transactions don\x27t interfere), and Durability (committed changes persist).",
     "Database sharding distributes data across multiple servers horizontally. Common sharding strategies include range-based (by key ranges), hash-based (by hash function), and directory-based (using a lookup service)."]),
   ("performance",
    ["Caching strategies improve application performance by storing frequently accessed data in memory. Common patterns include cache-aside (application manages cache), write-through (write to cache and database simultaneously), and write-behind (async write to database).",
     "Load balancing distributes incoming requests across multiple servers. Algorithms include round-robin, least connections, weighted round-robin, and IP hash. Health checks ensure requests aren\x27t sent to failing servers.",
     "Database connection pooling reduces overhead by reusing connections. Pool size should be tuned based on concurrent users and database capacity. Too few connections create bottlenecks, too many can overwhelm the database.",
     "Query optimization involves analyzing execution plans, adding proper indexes, avoiding N+1 queries, and using database-specific optimizations. EXPLAIN ANALYZE shows actual query performance metrics."]),
   ("scalability",
    ["Horizontal scaling adds more servers to handle increased load, while vertical scaling upgrades existing hardware. Horizontal scaling provides better fault tolerance but requires load balancing and data distribution strategies.",
     "Microservices architecture breaks applications into small, independent services. Benefits include technology diversity, team autonomy, and independent scaling. Challenges include distributed system complexity and inter-service communication.",
     "Event-driven architecture uses events to trigger and communicate between services. Patterns include event sourcing (storing events as primary data), CQRS (separate read/write models), and event streaming with tools like Kafka.",
     "Auto-scaling automatically adjusts resources based on demand. Metrics include CPU utilization, memory usage, request rate, and custom business metrics. Policies define scale-up/down thresholds and cooldown periods."]),
   ("caching",
    ["Redis is an in-memory data store supporting various data structures: strings, hashes, lists, sets, sorted sets, and streams. It provides persistence options including RDB snapshots and AOF logging.",
     "Cache invalidation strategies ensure data consistency. Time-based expiration (TTL) is simple but may serve stale data. Cache-aside pattern gives application control over when to invalidate specific keys.",
     "CDN (Content Delivery Network) caches static content at edge locations worldwide. This reduces latency by serving content from locations closer to users. Dynamic content can also be cached with proper cache headers.",
     "Application-level caching can occur at multiple layers: browser cache, reverse proxy cache (nginx, Varnish), application cache (in-memory objects), and database query cache. Each layer has different invalidation strategies."]),
   ("system",
    ["CAP theorem states distributed systems can guarantee at most two of: Consistency (all nodes see same data), Availability (system remains operational), and Partition tolerance (system continues despite network failures).",
     "Consistent hashing distributes data across nodes in a way that minimizes reshuffling when nodes are added or removed. Virtual nodes improve load distribution and fault tolerance.",
     "Circuit breaker pattern prevents cascading failures in distributed systems. It monitors failure rates and \x27opens\x27 to prevent calls to failing services, allowing them time to recover.",
     "Eventual consistency allows distributed systems to be temporarily inconsistent but guarantees convergence. This enables high availability and partition tolerance at the cost of immediate consistency."]),
   ("design",
    ["Design patterns provide reusable solutions to common problems. Creational patterns (Singleton, Factory) deal with object creation. Structural patterns (Adapter, Decorator) deal with object composition. Behavioral patterns (Observer, Strategy) deal with communication.",
     "Domain-driven design focuses on the core domain and domain logic. Key concepts include entities (objects with identity), value objects (immutable objects), aggregates (consistency boundaries), and bounded contexts (logical boundaries).",
     "API design principles include REST (Representational State Transfer) with proper HTTP methods, resource-based URLs, and stateless communication. GraphQL provides flexible querying but adds complexity.",
     "Database design involves choosing between SQL (ACID compliance, complex queries) and NoSQL (scalability, flexibility). Consider data structure, query patterns, consistency requirements, and scaling needs."])]

/-- The fallback chunks used when no hard-coded key matches any topic. -/
def fallbackContent : List String :=
  ["General software engineering principles include separation of concerns, single responsibility, and loose coupling. Code should be readable, maintainable, and testable.",
   "Software architecture patterns include layered architecture (presentation, business, data), hexagonal architecture (ports and adapters), and clean architecture (dependency inversion).",
   "Testing strategies include unit tests (individual components), integration tests (component interactions), and end-to-end tests (full user workflows). Test-driven development (TDD) writes tests before code."]

/-- Swap positions `i` and `j` of a list (the body of the `shuffleStrings`
loop); out-of-range indices leave the list unchanged (never hit here). -/
def swapAt (l : List α) (i j : Nat) : List α :=
  match l[i]?, l[j]? with
  | some a, some b => (l.set i b).set j a
  | _, _ => l

/-- Go `shuffleStrings` (`services/quiz`): `for i := range slice { j :=
rand.Intn(i + 1); swap }` with the random draw for step `i` supplied by `g`. -/
def shuffleStrings (g : Nat → Nat) (l : List String) : List String :=
  (List.range l.length).foldl (fun acc i => swapAt acc i (g i % (i + 1))) l

/-- The chunk-collection loops of `GetContentForTopics`: for each topic, every
hard-coded key contained in the lower-cased topic contributes its chunks. -/
def collectContent (topics : List String) : List String :=
  topics.foldl (fun acc topic =>
    hardcodedContent.foldl (fun acc2 kv =>
      if kv.1.data <:+: goToLower topic.data then acc2 ++ kv.2 else acc2) acc) []

/-- Go `GetContentForTopics` (`services/quiz`): collect, substitute the fallback
when nothing matched, shuffle, truncate to 5. -/
def getContentForTopics (g : Nat → Nat) (topics : List String) : List String :=
  let content := collectContent topics
  let content := if content = [] then fallbackContent else content
  let shuffled := shuffleStrings g content
  if 5 < shuffled.length then shuffled.take 5 else shuffled

/-- Go `(*Service).ConductQuizV2` (`services/quiz/conductQuizV2.go`,
configuration-based variant): topic validation, content retrieval with its
empty-content guard, then the same forced decision handling as `ConductQuiz`. -/
def conductQuizV2 (g : Nat → Nat) (config : QuizV2Configuration)
    (resp : Except String ContentResponse) : Except GoErr QuizConductResponse :=
  if config.topics = [] then .error .atLeastOneTopic
  else
    let content := getContentForTopics g config.topics
    if content = [] then .error (.noContentForTopics config.topics)
    else
      match resp with
      | .error e => .error (.providerFailed e)
      | .ok r =>
        match firstToolCall r with
        | none => .error .noToolCalls
        | some tc => conductDecision tc

/-! ## Quiz store (`quizStoreService.go`) -/

/-- Go `models.CreateQuizRequest` (`Config QuizV2Configuration`). -/
structure CreateQuizRequest where
  config : QuizV2Configuration
  deriving DecidableEq, Repr

/-- Go `models.Quiz` restricted to the fields `CreateQuiz` sets. -/
structure Quiz where
  id : Int
  config : QuizV2Configuration
  llmContext : String
  askedQuestions : List String
  deriving DecidableEq, Repr

/-- The topic loop of `validateCreateRequest`: trim each topic in place,
failing on the first one that trims to empty ( 1-based index in the error). -/
def trimTopicsLoop : Nat → List String → Except GoErr (List String)
  | _, [] => .ok []
  | i, t :: ts =>
    let t' := (goTrimSpace t.data).asString
    if t' = "" then .error (.emptyTopic (i + 1))
    else do
      let rest ← trimTopicsLoop (i + 1) ts
      .ok (t' :: rest)

/-- Go `(*QuizStoreService).validateCreateRequest`: `nil` request, empty topic
list, question count out of (0, 5], empty topic after trimming.  Returns the
request with topics trimmed (the Go code trims them in place). -/
def validateCreateRequest : Option CreateQuizRequest → Except GoErr CreateQuizRequest
  | none => .error .requestNil
  | some req =>
    if req.config.topics = [] then .error .atLeastOneTopic
    else if req.config.questionCount ≤ 0 then .error .questionCountNonPositive
    else if 5 < req.config.questionCount then .error .questionCountTooLarge
    else do
      let topics ← trimTopicsLoop 0 req.config.topics
      .ok ⟨⟨req.config.questionCount, topics⟩⟩

/-- Result of `CreateQuiz` together with whether the document-index and
repository collaborators were invoked. -/
structure CreateQuizOutcome where
  result : Except GoErr Quiz
  docindexCalled : Bool
  repoCalled : Bool
  deriving Repr

/-- Go `(*QuizStoreService).CreateQuiz`: validate, query the document index with
`QuestionCount + 5` as chunk limit, join the chunks, store the quiz (the
repository returns the assigned id). -/
def createQuiz (docindex : List String → Int → Except String (List String))
    (repo : Quiz → Except String Int) (req : Option CreateQuizRequest) :
    CreateQuizOutcome :=
  match validateCreateRequest req with
  | .error e => ⟨.error e, false, false⟩
  | .ok req' =>
    let chunkLimit := req'.config.questionCount + 5
    match docindex req'.config.topics chunkLimit with
    | .error e => ⟨.error (.docindexFailed e), true, false⟩
    | .ok llmContext =>
      let combinedContext := String.intercalate "\n\n=== CHUNK SEPARATOR ===\n\n" llmContext
      let quiz : Quiz := ⟨0, req'.config, combinedContext, []⟩
      match repo quiz with
      | .error e => ⟨.error (.repoFailed e), true, true⟩
      | .ok newID => ⟨.ok { quiz with id := newID }, true, true⟩

/-- The `"minimum"`/`"maximum"` bounds advertised for `question_count` in the
`finalize_quiz_config` schema of `quizConfigTools` (`quizService.go`). -/
def quizConfigQuestionCountBounds : Nat × Nat := (1, 50)

/-! ## Agent orchestrator (`services/agent/service.go`)

The Anthropic response is its content blocks; the provider call is modelled
by passing its outcome.  The registry (`Service.tools`) is a list of named
tools whose `Call` is a function from the marshalled input to an
`(result, error)` pair. -/

/-- Go `models.ToolCall` (`Arguments` kept as the decoded JSON input). -/
structure AgentToolCall where
  id : String
  name : String
  arguments : Json

/-- Go `models.ToolResult`. -/
structure AgentToolResult where
  toolCallID : String
  content : String

/-- Go `models.AgentMessage`. -/
structure AgentMessage where
  role : String
  content : String
  toolCalls : List AgentToolCall
  toolResults : List AgentToolResult

/-- Go `models.AgentResponse`. -/
structure AgentResponse where
  messages : List AgentMessage

/-- One registered `AgentTool`: `Name()` and `Call(ctx, argumentsJSON)`. -/
structure AgentTool where
  name : String
  call : Json → Except String String

/-- One content block of the Anthropic response (text or tool use). -/
inductive ContentBlock where
  | text (s : String)
  | toolUse (id name : String) (input : Json)

/-- A tool-use block (`anthropic.ToolUseBlock` restricted to the fields
read). -/
structure ToolUse where
  id : String
  name : String
  input : Json

/-- The `toolUses` collected from the response blocks, in response order. -/
def extractToolUses (blocks : List ContentBlock) : List ToolUse :=
  blocks.filterMap fun b =>
    match b with
    | .toolUse id name input => some ⟨id, name, input⟩
    | .text _ => none

/-- The concatenated text of the response blocks (`assistantContent`). -/
def assistantContentOf (blocks : List ContentBlock) : String :=
  blocks.foldl (fun acc b =>
    match b with
    | .text s => acc ++ s
    | .toolUse _ _ _ => acc) ""

/-- The assistant message `ProcessMessage` builds from the response. -/
def assistantMessageOf (blocks : List ContentBlock) : AgentMessage :=
  ⟨"assistant", assistantContentOf blocks,
    (extractToolUses blocks).map (fun tu => ⟨tu.id, tu.name, tu.input⟩), []⟩

/-- Go `(*Service).executeTool`: linear scan of the registry by name; a missing
tool is the error `"tool <name> not found"`. -/
def executeTool (tools : List AgentTool) (toolName : String) (input : Json) :
    Except String String :=
  match tools.find? (fun t => t.name = toolName) with
  | some tool => tool.call input
  | none => .error ("tool " ++ toolName ++ " not found")

/-- The tool message appended for one tool use: a failed execution is captured
as the content `"Error: <message>"`, never as a Go error. -/
def toolMessageOf (tools : List AgentTool) (tu : ToolUse) : AgentMessage :=
  let result :=
    match executeTool tools tu.name tu.input with
    | .ok r => r
    | .error e => "Error: " ++ e
  ⟨"tool", "", [], [⟨tu.id, result⟩]⟩

/-- Go `(*Service).ProcessMessage`: fail on a provider error; otherwise append
the assistant message, then one tool message per tool use (in response
order). -/
def processMessage (tools : List AgentTool) (messages : List AgentMessage)
    (provider : Except String (List ContentBlock)) : Except String AgentResponse :=
  match provider with
  | .error e => .error ("failed to call Anthropic API: " ++ e)
  | .ok blocks =>
    let updatedMessages := messages ++ [assistantMessageOf blocks]
    let toolUses := extractToolUses blocks
    let updatedMessages :=
      if 0 < toolUses.length then
        toolUses.foldl (fun acc tu => acc ++ [toolMessageOf tools tu]) updatedMessages
      else updatedMessages
    .ok ⟨updatedMessages⟩

/-! ## Agent theorems -/

theorem foldl_append_singleton {α β : Type} (f : β → α) :
    ∀ (l : List β) (init : List α),
      l.foldl (fun acc x => acc ++ [f x]) init = init ++ l.map f := by
  intro l
  induction l with
  | nil => intro init; simp
  | cons x xs ih => intro init; simp [ih]

theorem processMessage_ok_eq (tools : List AgentTool) (msgs : List AgentMessage)
    (blocks : List ContentBlock) :
    processMessage tools msgs (.ok blocks) =
      .ok ⟨msgs ++ assistantMessageOf blocks ::
        (extractToolUses blocks).map (toolMessageOf tools)⟩ := by
  simp only [processMessage]
  by_cases h : 0 < (extractToolUses blocks).length
  · rw [if_pos h, foldl_append_singleton]
    simp
  · rw [if_neg h]
    have hnil : extractToolUses blocks = [] := by
      simpa using h
    simp [hnil]

theorem toolMessageOf_role (tools : List AgentTool) (tu : ToolUse) :
    (toolMessageOf tools tu).role = "tool" := rfl

theorem getLast?_map_toolMessage_role (tools : List AgentTool) :
    ∀ (tus : List ToolUse) (tu : ToolUse),
      (((tu :: tus).map (toolMessageOf tools)).getLast?).map AgentMessage.role =
        some "tool" := by
  intro tus
  induction tus with
  | nil => intro tu; simp [toolMessageOf_role]
  | cons tu' tus' ih =>
    intro tu
    rw [List.map_cons, List.map_cons, List.getLast?_cons_cons, ← List.map_cons]
    exact ih tu'

/-- C3.  Given a successful provider call, `ProcessMessage` returns the input
conversation followed by the single assistant message and then exactly one
tool message per tool call, in the order the provider requested them; the
returned conversation ends in a non-`"tool"` message iff the assistant
response contained zero tool calls. -/
theorem processMessage_appends_assistant_then_tools (tools : List AgentTool)
    (msgs : List AgentMessage) (blocks : List ContentBlock) :
    processMessage tools msgs (.ok blocks) =
      .ok ⟨msgs ++ assistantMessageOf blocks ::
        (extractToolUses blocks).map (toolMessageOf tools)⟩ ∧
    (((msgs ++ assistantMessageOf blocks ::
        (extractToolUses blocks).map (toolMessageOf tools)).getLast?.map
          AgentMessage.role ≠ some "tool") ↔
      (assistantMessageOf blocks).toolCalls = []) := by
  refine ⟨processMessage_ok_eq tools msgs blocks, ?_⟩
  have htc : (assistantMessageOf blocks).toolCalls = [] ↔ extractToolUses blocks = [] := by
    simp [assistantMessageOf]
  rw [htc]
  rw [List.getLast?_append_of_ne_nil _ (by simp)]
  cases hx : extractToolUses blocks with
  | nil =>
    simp only [List.map_nil]
    have hrole : (assistantMessageOf blocks).role = "assistant" := rfl
    simp [List.getLast?, hrole]
  | cons tu tus =>
    have hstep : assistantMessageOf blocks ::
        List.map (toolMessageOf tools) (tu :: tus) =
        [assistantMessageOf blocks] ++ List.map (toolMessageOf tools) (tu :: tus) := rfl
    rw [hstep, List.getLast?_append_of_ne_nil _ (by simp)]
    have hrole := getLast?_map_toolMessage_role tools tus tu
    rw [hrole]
    simp

/-- C4.  A tool call whose dispatch fails — including a name absent from the
registry — is captured as a tool message whose `ToolResult` content is
`"Error: <message>"`, and `ProcessMessage` still completes normally (the
failure is never propagated as a hard error). -/
theorem processMessage_tool_failure_captured (tools : List AgentTool)
    (msgs : List AgentMessage) (blocks : List ContentBlock)
    (tuID toolName : String) (input : Json) (e : String)
    (h : executeTool tools toolName input = .error e) :
    toolMessageOf tools ⟨tuID, toolName, input⟩ =
        ⟨"tool", "", [], [⟨tuID, "Error: " ++ e⟩]⟩ ∧
      (∀ nm inp, tools.find? (fun t => t.name = nm) = none →
        executeTool tools nm inp = .error ("tool " ++ nm ++ " not found")) ∧
      ∃ out, processMessage tools msgs (.ok blocks) = .ok out := by
  refine ⟨?_, ?_, ⟨_, processMessage_ok_eq tools msgs blocks⟩⟩
  · simp [toolMessageOf, h]
  · intro nm inp hf
    simp [executeTool, hf]

/-- C4, witness: an empty registry makes every dispatch fail with
`"tool <name> not found"`, which `ProcessMessage` captures as content. -/
theorem processMessage_tool_failure_captured_witness :
    toolMessageOf [] ⟨"1", "weather", Json.null⟩ =
        ⟨"tool", "", [], [⟨"1", "Error: " ++ "tool weather not found"⟩]⟩ ∧
      (∀ nm inp, List.find? (fun t => t.name = nm) ([] : List AgentTool) = none →
        executeTool [] nm inp = .error ("tool " ++ nm ++ " not found")) ∧
      ∃ out, processMessage [] []
        (.ok [ContentBlock.toolUse "1" "weather" Json.null]) = .ok out :=
  processMessage_tool_failure_captured [] [] [ContentBlock.toolUse "1" "weather" Json.null]
    "1" "weather" Json.null "tool weather not found" rfl

/-! ## Relevance-ranker theorems -/

/-- C1, counterexample.  With a store holding notes 1 and 2, both requested,
and a provider decision that ranks only note 1, `RankNotes` does **not** fail:
it returns the partial ranking for note 1 alone.  The claimed
missing-rankings `NotFound` validation does not exist in the code (its only
not-found check compares the requested ids against the note store, before the
provider is called). -/
theorem rankNotes_partial_rankings_cex :
    rankNotes [⟨1, "alpha".data⟩, ⟨2, "beta".data⟩] [1, 2] ["t"]
      (.ok ⟨[⟨[⟨"rank_notes",
        some (.obj [("rankings",
          .arr [.obj [("note_id", .num 1), ("score", .num (1 / 2))]])])⟩]⟩]⟩) =
      .ok ⟨[⟨1, 1 / 2⟩]⟩ := by
  rfl

/-- C1, amended.  `RankNotes` fails with the not-found error naming the
missing ids exactly when some requested id is absent from the note store
(checked before the provider call); the provider's returned rankings are not
validated against the requested ids — whenever the `rank_notes` arguments
parse, the call succeeds and returns exactly the provided rankings sorted by
score descending, even if they omit requested ids. -/
theorem rankNotes_store_check_and_no_coverage_validation
    (notes : List Note) (noteIDs : List Int) (topics : List String)
    (resp : ContentResponse) (tc : ChatToolCall) (params : RankNotesParams)
    (h1 : noteIDs ≠ []) (h2 : topics ≠ []) :
    ((notes.filter (fun n => noteIDs.contains n.id)).length ≠ noteIDs.length →
      rankNotes notes noteIDs topics (.ok resp) =
        .error (.noteIDsNotFound (missingNoteIDs notes noteIDs))) ∧
    ((notes.filter (fun n => noteIDs.contains n.id)).length = noteIDs.length →
      firstToolCall resp = some tc →
      tc.name = "rank_notes" →
      parseRankNotesParams tc.args = .ok params →
      rankNotes notes noteIDs topics (.ok resp) =
        .ok ⟨sortByScoreDesc (params.rankings.map fun rk =>
          RankedNote.mk rk.noteID rk.score)⟩) := by
  constructor
  · intro hlen
    simp only [rankNotes]
    rw [if_neg h1, if_neg h2, if_pos hlen]
  · intro hlen htc hname hparse
    simp only [rankNotes]
    rw [if_neg h1, if_neg h2, if_neg (not_not_intro hlen)]
    rw [htc]
    dsimp only
    rw [if_neg (not_not_intro hname), hparse]
    rfl

/-- C1, witness for the amended theorem: the counterexample inputs satisfy the
store check, so the call succeeds with the single provided ranking. -/
theorem rankNotes_no_coverage_validation_witness :
    rankNotes [⟨1, "alpha".data⟩, ⟨2, "beta".data⟩] [1, 2] ["t"]
      (.ok ⟨[⟨[⟨"rank_notes",
        some (.obj [("rankings",
          .arr [.obj [("note_id", .num 1), ("score", .num (1 / 2))]])])⟩]⟩]⟩) =
      .ok ⟨sortByScoreDesc ([⟨1, 1 / 2⟩] : List RankedNote)⟩ :=
  (rankNotes_store_check_and_no_coverage_validation
    [⟨1, "alpha".data⟩, ⟨2, "beta".data⟩] [1, 2] ["t"]
    ⟨[⟨[⟨"rank_notes",
      some (.obj [("rankings",
        .arr [.obj [("note_id", .num 1), ("score", .num (1 / 2))]])])⟩]⟩]⟩
    ⟨"rank_notes",
      some (.obj [("rankings",
        .arr [.obj [("note_id", .num 1), ("score", .num (1 / 2))]])])⟩
    ⟨[⟨1, 1 / 2⟩]⟩
    (by decide) (by decide)).2 (by decide) rfl rfl (by rfl)

/-! ## Structured-decision helper lemmas -/

theorem conductQuiz_eq_decision {notes : List Note} {ids : List Int}
    {topics : List String} {msgs : List Message} {resp : ContentResponse}
    {tc : ChatToolCall} (h1 : ids ≠ []) (h2 : topics ≠ [])
    (h3 : (notes.filter (fun n => ids.contains n.id)).length = ids.length)
    (htc : firstToolCall resp = some tc) :
    conductQuiz notes ids topics msgs (.ok resp) = conductDecision tc := by
  simp only [conductQuiz]
  rw [if_neg h1, if_neg h2, if_neg (not_not_intro h3)]
  rw [htc]

theorem conductQuiz_no_tool_calls {notes : List Note} {ids : List Int}
    {topics : List String} {msgs : List Message} {resp : ContentResponse}
    (h1 : ids ≠ []) (h2 : topics ≠ [])
    (h3 : (notes.filter (fun n => ids.contains n.id)).length = ids.length)
    (htc : firstToolCall resp = none) :
    conductQuiz notes ids topics msgs (.ok resp) = .error .noToolCalls := by
  simp only [conductQuiz]
  rw [if_neg h1, if_neg h2, if_neg (not_not_intro h3)]
  rw [htc]

theorem conductDecision_continue {tc : ChatToolCall} {pm : MessageParams}
    (hn : tc.name = "continue_quiz")
    (hp : parseMessageParams "continue_quiz" tc.args = .ok pm) :
    conductDecision tc = .ok ⟨"continue", pm.message, none⟩ := by
  simp only [conductDecision]
  rw [if_pos hn, hp]
  rfl

theorem conductDecision_evaluate {tc : ChatToolCall} {pe : EvaluateAnswerParams}
    (hn : tc.name = "evaluate_answer")
    (hp : parseEvaluateAnswerParams tc.args = .ok pe) :
    conductDecision tc = .ok ⟨"evaluate", pe.feedback, some ⟨pe.isCorrect, pe.feedback⟩⟩ := by
  simp only [conductDecision]
  rw [if_neg (by rw [hn]; decide), if_pos hn, hp]
  rfl

theorem conductDecision_unknown {tc : ChatToolCall}
    (hn1 : tc.name ≠ "continue_quiz") (hn2 : tc.name ≠ "evaluate_answer") :
    conductDecision tc = .error (.unknownFunctionCall tc.name) := by
  simp only [conductDecision]
  rw [if_neg hn1, if_neg hn2]

theorem conductDecision_ok_shape {tc : ChatToolCall} {r : QuizConductResponse}
    (h : conductDecision tc = .ok r) :
    (r.type = "continue" ∧ r.evaluation = none) ∨
      (r.type = "evaluate" ∧ r.evaluation ≠ none) := by
  simp only [conductDecision] at h
  split at h
  · cases hp : parseMessageParams "continue_quiz" tc.args with
    | error e => rw [hp] at h; cases h
    | ok pm =>
      rw [hp] at h
      cases h
      exact Or.inl ⟨rfl, rfl⟩
  · split at h
    · cases hp : parseEvaluateAnswerParams tc.args with
      | error e => rw [hp] at h; cases h
      | ok pe =>
        rw [hp] at h
        cases h
        exact Or.inr ⟨rfl, by simp⟩
    · cases h

theorem configureQuiz_no_tool_calls {notes : List Note} {resp : ContentResponse}
    (htc : firstToolCall resp = none) :
    configureQuiz notes (.ok resp) = .error .noToolCalls := by
  simp only [configureQuiz]
  rw [htc]

theorem configureQuiz_continue_eq {notes : List Note} {resp : ContentResponse}
    {tc : ChatToolCall} {pm : MessageParams}
    (htc : firstToolCall resp = some tc) (hn : tc.name = "continue_interview")
    (hp : parseMessageParams "continue_interview" tc.args = .ok pm) :
    configureQuiz notes (.ok resp) = .ok ⟨"continue", pm.message, none⟩ := by
  simp only [configureQuiz]
  rw [htc]
  dsimp only
  rw [if_pos hn, hp]
  rfl

theorem configureQuiz_finalize_eq {notes : List Note} {resp : ContentResponse}
    {tc : ChatToolCall} {pf : FinalizeConfigParams}
    (htc : firstToolCall resp = some tc) (hn : tc.name = "finalize_quiz_config")
    (hp : parseFinalizeConfigParams tc.args = .ok pf) :
    configureQuiz notes (.ok resp) =
      (if searchNotesByContent notes (pf.topics.map String.data) = [] then
        .ok ⟨"continue", noNotesFoundMessage pf.topics, none⟩
      else
        .ok ⟨"configure", pf.reasoning,
          some ⟨(searchNotesByContent notes (pf.topics.map String.data)).map Note.id,
            pf.questionCount, joinComma pf.topics⟩⟩) := by
  simp only [configureQuiz]
  rw [htc]
  dsimp only
  rw [if_neg (by rw [hn]; decide), if_pos hn, hp]
  rfl

theorem configureQuiz_unknown_eq {notes : List Note} {resp : ContentResponse}
    {tc : ChatToolCall}
    (htc : firstToolCall resp = some tc)
    (hn1 : tc.name ≠ "continue_interview") (hn2 : tc.name ≠ "finalize_quiz_config") :
    configureQuiz notes (.ok resp) = .error (.unknownFunctionCall tc.name) := by
  simp only [configureQuiz]
  rw [htc]
  dsimp only
  rw [if_neg hn1, if_neg hn2]

theorem configureQuiz_ok_shape {notes : List Note} {resp : ContentResponse}
    {r : QuizConfigResponse} (h : configureQuiz notes (.ok resp) = .ok r) :
    r.type = "continue" ∨ r.type = "configure" := by
  simp only [configureQuiz] at h
  cases htc : firstToolCall resp with
  | none => rw [htc] at h; cases h
  | some tc =>
    rw [htc] at h
    dsimp only at h
    split at h
    · cases hp : parseMessageParams "continue_interview" tc.args with
      | error e => rw [hp] at h; cases h
      | ok pm =>
        rw [hp] at h
        cases h
        exact Or.inl rfl
    · split at h
      · cases hp : parseFinalizeConfigParams tc.args with
        | error e => rw [hp] at h; cases h
        | ok pf =>
          rw [hp] at h
          rw [show ((do
              let params ← (Except.ok pf : Except GoErr FinalizeConfigParams)
              let matchingNotes := searchNotesByContent notes (params.topics.map String.data)
              if matchingNotes = [] then
                Except.ok (QuizConfigResponse.mk "continue" (noNotesFoundMessage params.topics) none)
              else
                Except.ok (QuizConfigResponse.mk "configure" params.reasoning
                  (some (QuizConfiguration.mk (matchingNotes.map Note.id)
                    params.questionCount (joinComma params.topics))))) :
              Except GoErr QuizConfigResponse) =
            (if searchNotesByContent notes (pf.topics.map String.data) = [] then
              Except.ok (QuizConfigResponse.mk "continue" (noNotesFoundMessage pf.topics) none)
            else
              Except.ok (QuizConfigResponse.mk "configure" pf.reasoning
                (some (QuizConfiguration.mk
                  ((searchNotesByContent notes (pf.topics.map String.data)).map Note.id)
                  pf.questionCount (joinComma pf.topics))))) from rfl] at h
          split at h
          · cases h; exact Or.inl rfl
          · cases h; exact Or.inr rfl
      · cases h

theorem buildConductQuizPrompt_initial (notes : List Note) (topics : List String) :
    ∃ rest, buildConductQuizPrompt notes topics [] =
      "Generate one thoughtful quiz question based on the following study materials" ++
        rest := by
  simp only [buildConductQuizPrompt, List.length_nil, if_true]
  rw [if_neg (by decide : ¬ (0 : Nat) < 0)]
  by_cases h : 0 < topics.length
  · rw [if_pos h]
    simp only [String.append_assoc]
    exact ⟨_, rfl⟩
  · rw [if_neg h]
    simp only [String.append_assoc]
    exact ⟨_, rfl⟩

/-- C5, counterexample.  A first-round `ConductQuiz` call (empty prior
messages) whose provider decision is `evaluate_answer` returns an evaluation
result (`Type = "evaluate"`), so the code does not guarantee a
question/continue result on the first round. -/
theorem conductQuiz_first_round_evaluate_cex :
    conductQuiz [⟨1, "alpha".data⟩] [1] ["t"] []
      (.ok ⟨[⟨[⟨"evaluate_answer",
        some (.obj [("is_correct", .bool true), ("feedback", .str "well done")])⟩]⟩]⟩) =
      .ok ⟨"evaluate", "well done", some ⟨true, "well done"⟩⟩ := by
  rfl

/-- C5, amended.  On a first-round `ConductQuiz` call (empty prior messages)
the prompt that is built for the provider is the question-generation prompt
(it begins with "Generate one thoughtful quiz question based on the following
study materials"), but the type of the returned response is determined solely
by the provider's decision: `continue_quiz` yields a continue result and
`evaluate_answer` yields an evaluation result, even on the first round. -/
theorem conductQuiz_first_round_follows_decision (notes : List Note)
    (ids : List Int) (topics : List String) (resp : ContentResponse)
    (tc : ChatToolCall) (pm : MessageParams) (pe : EvaluateAnswerParams)
    (h1 : ids ≠ []) (h2 : topics ≠ [])
    (h3 : (notes.filter (fun n => ids.contains n.id)).length = ids.length)
    (htc : firstToolCall resp = some tc) :
    (∃ rest, buildConductQuizPrompt (notes.filter (fun n => ids.contains n.id)) topics [] =
      "Generate one thoughtful quiz question based on the following study materials" ++
        rest) ∧
    (tc.name = "continue_quiz" →
      parseMessageParams "continue_quiz" tc.args = .ok pm →
      conductQuiz notes ids topics [] (.ok resp) = .ok ⟨"continue", pm.message, none⟩) ∧
    (tc.name = "evaluate_answer" →
      parseEvaluateAnswerParams tc.args = .ok pe →
      conductQuiz notes ids topics [] (.ok resp) =
        .ok ⟨"evaluate", pe.feedback, some ⟨pe.isCorrect, pe.feedback⟩⟩) := by
  refine ⟨buildConductQuizPrompt_initial _ _, ?_, ?_⟩
  · intro hn hp
    rw [conductQuiz_eq_decision h1 h2 h3 htc, conductDecision_continue hn hp]
  · intro hn hp
    rw [conductQuiz_eq_decision h1 h2 h3 htc, conductDecision_evaluate hn hp]

/-- C5, witness: the amended theorem applied to the counterexample inputs. -/
theorem conductQuiz_first_round_follows_decision_witness :
    conductQuiz [⟨1, "alpha".data⟩] [1] ["t"] []
      (.ok ⟨[⟨[⟨"evaluate_answer",
        some (.obj [("is_correct", .bool true), ("feedback", .str "well done")])⟩]⟩]⟩) =
      .ok ⟨"evaluate", "well done", some ⟨true, "well done"⟩⟩ :=
  (conductQuiz_first_round_follows_decision [⟨1, "alpha".data⟩] [1] ["t"]
    ⟨[⟨[⟨"evaluate_answer",
      some (.obj [("is_correct", .bool true), ("feedback", .str "well done")])⟩]⟩]⟩
    ⟨"evaluate_answer",
      some (.obj [("is_correct", .bool true), ("feedback", .str "well done")])⟩
    ⟨""⟩ ⟨true, "well done", "", ""⟩
    (by decide) (by decide) (by decide) rfl).2.2 rfl (by rfl)

/-- C6.  For both structured-decision steps (`ConfigureQuiz` and
`ConductQuiz`): a provider response with zero tool calls is a fatal error; a
tool-call name outside the step's decision set is a fatal error (never a
default "continue" fallback); a known name with parseable arguments yields
exactly that decision's typed result; and every successful result carries
exactly one type of the step's two-element decision set. -/
theorem structured_decision_exactly_one (notes : List Note) (ids : List Int)
    (topics : List String) (msgs : List Message) (resp : ContentResponse)
    (tc : ChatToolCall) (pm : MessageParams) (pf : FinalizeConfigParams)
    (pe : EvaluateAnswerParams)
    (h1 : ids ≠ []) (h2 : topics ≠ [])
    (h3 : (notes.filter (fun n => ids.contains n.id)).length = ids.length) :
    (firstToolCall resp = none →
      configureQuiz notes (.ok resp) = .error .noToolCalls ∧
      conductQuiz notes ids topics msgs (.ok resp) = .error .noToolCalls) ∧
    (firstToolCall resp = some tc →
      (tc.name ≠ "continue_interview" → tc.name ≠ "finalize_quiz_config" →
        configureQuiz notes (.ok resp) = .error (.unknownFunctionCall tc.name)) ∧
      (tc.name ≠ "continue_quiz" → tc.name ≠ "evaluate_answer" →
        conductQuiz notes ids topics msgs (.ok resp) =
          .error (.unknownFunctionCall tc.name)) ∧
      (tc.name = "continue_interview" →
        parseMessageParams "continue_interview" tc.args = .ok pm →
        configureQuiz notes (.ok resp) = .ok ⟨"continue", pm.message, none⟩) ∧
      (tc.name = "finalize_quiz_config" →
        parseFinalizeConfigParams tc.args = .ok pf →
        ∃ r, configureQuiz notes (.ok resp) = .ok r) ∧
      (tc.name = "continue_quiz" →
        parseMessageParams "continue_quiz" tc.args = .ok pm →
        conductQuiz notes ids topics msgs (.ok resp) =
          .ok ⟨"continue", pm.message, none⟩) ∧
      (tc.name = "evaluate_answer" →
        parseEvaluateAnswerParams tc.args = .ok pe →
        conductQuiz notes ids topics msgs (.ok resp) =
          .ok ⟨"evaluate", pe.feedback, some ⟨pe.isCorrect, pe.feedback⟩⟩)) ∧
    (∀ r, configureQuiz notes (.ok resp) = .ok r →
      (r.type = "continue" ∧ r.type ≠ "configure") ∨
        (r.type = "configure" ∧ r.type ≠ "continue")) ∧
    (∀ r, conductQuiz notes ids topics msgs (.ok resp) = .ok r →
      (r.type = "continue" ∧ r.evaluation = none) ∨
        (r.type = "evaluate" ∧ r.evaluation ≠ none)) := by
  refine ⟨?_, ?_, ?_, ?_⟩
  · intro htc
    exact ⟨configureQuiz_no_tool_calls htc, conductQuiz_no_tool_calls h1 h2 h3 htc⟩
  · intro htc
    refine ⟨?_, ?_, ?_, ?_, ?_, ?_⟩
    · intro hn1 hn2
      exact configureQuiz_unknown_eq htc hn1 hn2
    · intro hn1 hn2
      rw [conductQuiz_eq_decision h1 h2 h3 htc, conductDecision_unknown hn1 hn2]
    · intro hn hp
      exact configureQuiz_continue_eq htc hn hp
    · intro hn hp
      rw [configureQuiz_finalize_eq htc hn hp]
      split
      · exact ⟨_, rfl⟩
      · exact ⟨_, rfl⟩
    · intro hn hp
      rw [conductQuiz_eq_decision h1 h2 h3 htc, conductDecision_continue hn hp]
    · intro hn hp
      rw [conductQuiz_eq_decision h1 h2 h3 htc, conductDecision_evaluate hn hp]
  · intro r hr
    rcases configureQuiz_ok_shape hr with h | h
    · exact Or.inl ⟨h, by rw [h]; decide⟩
    · exact Or.inr ⟨h, by rw [h]; decide⟩
  · intro r hr
    cases htc : firstToolCall resp with
    | none => rw [conductQuiz_no_tool_calls h1 h2 h3 htc] at hr; cases hr
    | some tc' =>
      rw [conductQuiz_eq_decision h1 h2 h3 htc] at hr
      exact conductDecision_ok_shape hr

/-- C6, witness: a response with zero tool calls makes both steps fail. -/
theorem structured_decision_exactly_one_witness :
    configureQuiz [⟨1, "alpha".data⟩] (.ok ⟨[]⟩) = .error .noToolCalls ∧
      conductQuiz [⟨1, "alpha".data⟩] [1] ["t"] [] (.ok ⟨[]⟩) = .error .noToolCalls :=
  (structured_decision_exactly_one [⟨1, "alpha".data⟩] [1] ["t"] [] ⟨[]⟩
    ⟨"x", none⟩ ⟨""⟩ ⟨0, [], ""⟩ ⟨false, "", "", ""⟩
    (by decide) (by decide) (by decide)).1 rfl

/-- C7.  When the configure step's decision is `finalize_quiz_config` with
parseable arguments, the extracted topics are passed verbatim to
`SearchNotesByContent`; if that search selects zero notes the call returns a
continue-type clarification response with a `nil` config and no error,
otherwise a configure-type response built from the matching note ids. -/
theorem configureQuiz_finalize_topics_verbatim (notes : List Note)
    (resp : ContentResponse) (tc : ChatToolCall) (pf : FinalizeConfigParams)
    (htc : firstToolCall resp = some tc) (hn : tc.name = "finalize_quiz_config")
    (hp : parseFinalizeConfigParams tc.args = .ok pf) :
    configureQuiz notes (.ok resp) =
      (if searchNotesByContent notes (pf.topics.map String.data) = [] then
        .ok ⟨"continue", noNotesFoundMessage pf.topics, none⟩
      else
        .ok ⟨"configure", pf.reasoning,
          some ⟨(searchNotesByContent notes (pf.topics.map String.data)).map Note.id,
            pf.questionCount, joinComma pf.topics⟩⟩) :=
  configureQuiz_finalize_eq htc hn hp

/-- C7, witness: finalising with topic `"blockchain"` against a store it does
not match yields the clarification response, with no error. -/
theorem configureQuiz_finalize_topics_verbatim_witness :
    configureQuiz [⟨1, "hello world".data⟩]
      (.ok ⟨[⟨[⟨"finalize_quiz_config",
        some (.obj [("question_count", .num 3),
          ("topics", .arr [.str "blockchain"]), ("reasoning", .str "because")])⟩]⟩]⟩) =
      .ok ⟨"continue", noNotesFoundMessage ["blockchain"], none⟩ := by
  have h := configureQuiz_finalize_topics_verbatim [⟨1, "hello world".data⟩]
    ⟨[⟨[⟨"finalize_quiz_config",
      some (.obj [("question_count", .num 3),
        ("topics", .arr [.str "blockchain"]), ("reasoning", .str "because")])⟩]⟩]⟩
    ⟨"finalize_quiz_config",
      some (.obj [("question_count", .num 3),
        ("topics", .arr [.str "blockchain"]), ("reasoning", .str "because")])⟩
    ⟨3, ["blockchain"], "because"⟩ rfl rfl (by rfl)
  rw [h, if_pos (by decide)]

/-! ## Content-retrieval lemmas (C9) -/

theorem swapAt_length (l : List String) (i j : Nat) :
    (swapAt l i j).length = l.length := by
  simp only [swapAt]
  split
  · simp
  · rfl

theorem swapAt_subset (l : List String) (i j : Nat) :
    ∀ x ∈ swapAt l i j, x ∈ l := by
  intro x hx
  simp only [swapAt] at hx
  split at hx
  · next a b hi hj =>
    rcases List.mem_or_eq_of_mem_set hx with hx1 | rfl
    · rcases List.mem_or_eq_of_mem_set hx1 with hx2 | rfl
      · exact hx2
      · exact List.getElem?_mem hj
    · exact List.getElem?_mem hi
  · exact hx

theorem foldl_swap_length (g : Nat → Nat) :
    ∀ (idxs : List Nat) (init : List String),
      (idxs.foldl (fun acc i => swapAt acc i (g i % (i + 1))) init).length =
        init.length := by
  intro idxs
  induction idxs with
  | nil => intro init; rfl
  | cons i is ih =>
    intro init
    simp only [List.foldl_cons]
    rw [ih, swapAt_length]

theorem foldl_swap_subset (g : Nat → Nat) :
    ∀ (idxs : List Nat) (init : List String),
      ∀ x ∈ idxs.foldl (fun acc i => swapAt acc i (g i % (i + 1))) init, x ∈ init := by
  intro idxs
  induction idxs with
  | nil => intro init x hx; exact hx
  | cons i is ih =>
    intro init x hx
    simp only [List.foldl_cons] at hx
    exact swapAt_subset _ _ _ x (ih _ x hx)

theorem shuffleStrings_length (g : Nat → Nat) (l : List String) :
    (shuffleStrings g l).length = l.length :=
  foldl_swap_length g _ l

theorem shuffleStrings_subset (g : Nat → Nat) (l : List String) :
    ∀ x ∈ shuffleStrings g l, x ∈ l :=
  foldl_swap_subset g _ l

theorem collectContent_eq_nil {topics : List String}
    (h : ∀ t ∈ topics, ∀ kv ∈ hardcodedContent, ¬ kv.1.data <:+: goToLower t.data) :
    collectContent topics = [] := by
  have inner : ∀ (topic : String), (∀ kv ∈ hardcodedContent,
      ¬ kv.1.data <:+: goToLower topic.data) →
      ∀ (l : List (String × List String)) (acc : List String),
        (∀ kv ∈ hardcodedContent, kv ∈ l → True) →
        (∀ kv ∈ l, kv ∈ hardcodedContent) →
        l.foldl (fun acc2 kv =>
          if kv.1.data <:+: goToLower topic.data then acc2 ++ kv.2 else acc2) acc = acc := by
    intro topic htopic l
    induction l with
    | nil => intro acc _ _; rfl
    | cons kv kvs ih =>
      intro acc _ hsub
      simp only [List.foldl_cons]
      rw [if_neg (htopic kv (hsub kv (by simp)))]
      exact ih acc (fun _ _ _ => trivial) (fun kv' h' => hsub kv' (by simp [h']))
  have outer : ∀ (ts : List String), (∀ t ∈ ts, ∀ kv ∈ hardcodedContent,
      ¬ kv.1.data <:+: goToLower t.data) →
      ∀ acc, ts.foldl (fun acc topic =>
        hardcodedContent.foldl (fun acc2 kv =>
          if kv.1.data <:+: goToLower topic.data then acc2 ++ kv.2 else acc2) acc) acc =
        acc := by
    intro ts
    induction ts with
    | nil => intro _ acc; rfl
    | cons t ts' ih =>
      intro hts acc
      simp only [List.foldl_cons]
      rw [inner t (hts t (by simp)) hardcodedContent acc (fun _ _ _ => trivial)
        (fun _ h' => h')]
      exact ih (fun t' ht' => hts t' (by simp [ht'])) acc
  exact outer topics h []

theorem getContentForTopics_len_pos (g : Nat → Nat) (topics : List String) :
    1 ≤ (getContentForTopics g topics).length ∧
      (getContentForTopics g topics).length ≤ 5 := by
  simp only [getContentForTopics]
  set content' := if collectContent topics = [] then fallbackContent
    else collectContent topics with hcontent
  have hne : content' ≠ [] := by
    rw [hcontent]
    split
    · intro hcon; cases hcon
    · next hc => exact hc
  have hlen : (shuffleStrings g content').length = content'.length :=
    shuffleStrings_length g content'
  have hpos : 0 < content'.length := List.length_pos.mpr hne
  split
  · next h5 =>
    rw [List.length_take]
    omega
  · next h5 =>
    rw [hlen] at h5 ⊢
    omega

theorem decodeStringField_error {fn : String} {o : Option Json} {e : GoErr}
    (h : decodeStringField fn o = .error e) : e = .parseArgsFailed fn := by
  cases o with
  | none => cases h
  | some j =>
    cases j <;> simp only [decodeStringField] at h <;> (try cases h) <;> rfl

theorem decodeBoolField_error {fn : String} {o : Option Json} {e : GoErr}
    (h : decodeBoolField fn o = .error e) : e = .parseArgsFailed fn := by
  cases o with
  | none => cases h
  | some j =>
    cases j <;> simp only [decodeBoolField] at h <;> (try cases h) <;> rfl

theorem parseMessageParams_error {fn : String} {args : Option Json} {e : GoErr}
    (h : parseMessageParams fn args = .error e) : e = .parseArgsFailed fn := by
  cases args with
  | none => injection h with h'; exact h'.symm
  | some j =>
    cases j <;> simp only [parseMessageParams] at h
    · cases h
    · injection h with h'; exact h'.symm
    · injection h with h'; exact h'.symm
    · injection h with h'; exact h'.symm
    · injection h with h'; exact h'.symm
    · next fields =>
      cases hd : decodeStringField fn (jsonLookup fields "message") with
      | error e1 =>
        rw [hd] at h
        injection h with h'
        exact h' ▸ decodeStringField_error hd
      | ok m => rw [hd] at h; cases h

theorem parseEvaluateAnswerParams_error {args : Option Json} {e : GoErr}
    (h : parseEvaluateAnswerParams args = .error e) :
    e = .parseArgsFailed "evaluate_answer" := by
  cases args with
  | none => injection h with h'; exact h'.symm
  | some j =>
    cases j <;> simp only [parseEvaluateAnswerParams] at h
    · cases h
    · injection h with h'; exact h'.symm
    · injection h with h'; exact h'.symm
    · injection h with h'; exact h'.symm
    · injection h with h'; exact h'.symm
    · next fields =>
      cases hc : decodeBoolField "evaluate_answer" (jsonLookup fields "is_correct") with
      | error e1 =>
        rw [hc] at h
        injection h with h'
        exact h' ▸ decodeBoolField_error hc
      | ok c =>
        rw [hc] at h
        cases hf : decodeStringField "evaluate_answer" (jsonLookup fields "feedback") with
        | error e1 =>
          rw [hf] at h
          injection h with h'
          exact h' ▸ decodeStringField_error hf
        | ok f =>
          rw [hf] at h
          cases hca : decodeStringField "evaluate_answer"
              (jsonLookup fields "correct_answer") with
          | error e1 =>
            rw [hca] at h
            injection h with h'
            exact h' ▸ decodeStringField_error hca
          | ok ca =>
            rw [hca] at h
            cases hen : decodeStringField "evaluate_answer"
                (jsonLookup fields "encouragement") with
            | error e1 =>
              rw [hen] at h
              injection h with h'
              exact h' ▸ decodeStringField_error hen
            | ok en => rw [hen] at h; cases h

theorem conductDecision_error_shape {tc : ChatToolCall} {e : GoErr}
    (h : conductDecision tc = .error e) :
    e = .unknownFunctionCall tc.name ∨ ∃ fn, e = .parseArgsFailed fn := by
  simp only [conductDecision] at h
  split at h
  · cases hp : parseMessageParams "continue_quiz" tc.args with
    | error e1 =>
      rw [hp] at h
      injection h with h'
      exact Or.inr ⟨_, h' ▸ parseMessageParams_error hp⟩
    | ok pm => rw [hp] at h; cases h
  · split at h
    · cases hp : parseEvaluateAnswerParams tc.args with
      | error e1 =>
        rw [hp] at h
        injection h with h'
        exact Or.inr ⟨_, h' ▸ parseEvaluateAnswerParams_error hp⟩
      | ok pe => rw [hp] at h; cases h
    · injection h with h'
      exact Or.inl h'.symm

/-- C9.  `GetContentForTopics` always returns between 1 and 5 chunks: when no
hard-coded key occurs in any lower-cased topic it substitutes the fixed
three-chunk fallback (the result is then 3 chunks drawn from it), and it
truncates the shuffled result to at most 5 chunks; consequently the
"no content available for topics" error branch of the configuration-based
`ConductQuizV2` can never be taken, for any random draws, configuration, or
provider response. -/
theorem getContentForTopics_bounds (g : Nat → Nat) (topics : List String)
    (cfg : QuizV2Configuration) (resp : Except String ContentResponse) :
    1 ≤ (getContentForTopics g topics).length ∧
      (getContentForTopics g topics).length ≤ 5 ∧
      ((∀ t ∈ topics, ∀ kv ∈ hardcodedContent, ¬ kv.1.data <:+: goToLower t.data) →
        (getContentForTopics g topics).length = 3 ∧
          ∀ c ∈ getContentForTopics g topics, c ∈ fallbackContent) ∧
      (∀ ts, conductQuizV2 g cfg resp ≠ .error (.noContentForTopics ts)) := by
  refine ⟨(getContentForTopics_len_pos g topics).1,
    (getContentForTopics_len_pos g topics).2, ?_, ?_⟩
  · intro hnone
    have hnil := collectContent_eq_nil hnone
    have hres : getContentForTopics g topics = shuffleStrings g fallbackContent := by
      simp only [getContentForTopics, hnil, if_true]
      rw [if_neg (by rw [shuffleStrings_length]; decide)]
    rw [hres]
    refine ⟨?_, shuffleStrings_subset g fallbackContent⟩
    rw [shuffleStrings_length]
    rfl
  · intro ts
    simp only [conductQuizV2]
    by_cases h0 : cfg.topics = []
    · rw [if_pos h0]; intro hcon; cases hcon
    · rw [if_neg h0]
      have hne' : getContentForTopics g cfg.topics ≠ [] := by
        have hone := (getContentForTopics_len_pos g cfg.topics).1
        intro hcon
        rw [hcon] at hone
        simp at hone
      rw [if_neg hne']
      cases resp with
      | error e => intro hcon; cases hcon
      | ok r =>
        dsimp only
        cases htc : firstToolCall r with
        | none => intro hcon; cases hcon
        | some tc =>
          intro hcon
          rcases conductDecision_error_shape hcon with h' | ⟨fn, h'⟩ <;> cases h'

/-- C9, witness: for the unmatched topic `"blockchain"` (with the identity-0
random source) the result is the three fallback chunks. -/
theorem getContentForTopics_bounds_witness :
    (getContentForTopics (fun _ => 0) ["blockchain"]).length = 3 ∧
      ∀ c ∈ getContentForTopics (fun _ => 0) ["blockchain"], c ∈ fallbackContent :=
  (getContentForTopics_bounds (fun _ => 0) ["blockchain"] ⟨1, ["t"]⟩
    (.ok ⟨[]⟩)).2.2.1 (by decide)

/-! ## Quiz store theorems (C10) -/

theorem trimTopicsLoop_error {ts : List String} :
    ∀ n, (∃ t ∈ ts, (goTrimSpace t.data).asString = "") →
      ∃ i, trimTopicsLoop n ts = .error (.emptyTopic i) := by
  induction ts with
  | nil => intro n h; simp at h
  | cons t ts' ih =>
    intro n h
    simp only [trimTopicsLoop]
    by_cases ht : (goTrimSpace t.data).asString = ""
    · rw [if_pos ht]
      exact ⟨n + 1, rfl⟩
    · rw [if_neg ht]
      obtain ⟨t', ht', hemp⟩ := h
      rcases List.mem_cons.mp ht' with rfl | hmem
      · exact absurd hemp ht
      · obtain ⟨i, hi⟩ := ih (n + 1) ⟨t', hmem, hemp⟩
        exact ⟨i, by rw [hi]; rfl⟩

theorem validateCreateRequest_ok_bounds {req req' : CreateQuizRequest}
    (h : validateCreateRequest (some req) = .ok req') :
    1 ≤ req'.config.questionCount ∧ req'.config.questionCount ≤ 5 := by
  simp only [validateCreateRequest] at h
  by_cases h0 : req.config.topics = []
  · rw [if_pos h0] at h; cases h
  · rw [if_neg h0] at h
    by_cases h1 : req.config.questionCount ≤ 0
    · rw [if_pos h1] at h; cases h
    · rw [if_neg h1] at h
      by_cases h2 : 5 < req.config.questionCount
      · rw [if_pos h2] at h; cases h
      · rw [if_neg h2] at h
        cases ht : trimTopicsLoop 0 req.config.topics with
        | error e => rw [ht] at h; cases h
        | ok topics' =>
          rw [ht] at h
          cases h
          constructor <;> (dsimp only; omega)

/-- C10.  `CreateQuiz` rejects a request with a validation error — before the
document index or the repository is called — whenever the question count is
outside 1..5 or some topic trims to empty (an empty topic list is likewise
rejected); every successfully created quiz has a question count between 1 and
5, although the `finalize_quiz_config` schema advertises a maximum of 50. -/
theorem createQuiz_validation_bounds
    (docindex : List String → Int → Except String (List String))
    (repo : Quiz → Except String Int) (req : CreateQuizRequest) :
    (¬ (1 ≤ req.config.questionCount ∧ req.config.questionCount ≤ 5 ∧
        ∀ t ∈ req.config.topics, (goTrimSpace t.data).asString ≠ "") →
      ∃ e, createQuiz docindex repo (some req) = ⟨.error e, false, false⟩ ∧
        (e = .atLeastOneTopic ∨ e = .questionCountNonPositive ∨
          e = .questionCountTooLarge ∨ ∃ i, e = .emptyTopic i)) ∧
    (∀ q, (createQuiz docindex repo (some req)).result = .ok q →
      1 ≤ q.config.questionCount ∧ q.config.questionCount ≤ 5) ∧
    quizConfigQuestionCountBounds.2 = 50 := by
  refine ⟨?_, ?_, rfl⟩
  · intro hcond
    have hval : ∃ e, validateCreateRequest (some req) = .error e ∧
        (e = .atLeastOneTopic ∨ e = .questionCountNonPositive ∨
          e = .questionCountTooLarge ∨ ∃ i, e = .emptyTopic i) := by
      simp only [validateCreateRequest]
      by_cases h0 : req.config.topics = []
      · rw [if_pos h0]; exact ⟨_, rfl, Or.inl rfl⟩
      · rw [if_neg h0]
        by_cases h1 : req.config.questionCount ≤ 0
        · rw [if_pos h1]; exact ⟨_, rfl, Or.inr (Or.inl rfl)⟩
        · rw [if_neg h1]
          by_cases h2 : 5 < req.config.questionCount
          · rw [if_pos h2]; exact ⟨_, rfl, Or.inr (Or.inr (Or.inl rfl))⟩
          · rw [if_neg h2]
            have hex : ∃ t ∈ req.config.topics, (goTrimSpace t.data).asString = "" := by
              by_contra hno
              push_neg at hno
              exact hcond ⟨by omega, by omega, hno⟩
            obtain ⟨i, hi⟩ := trimTopicsLoop_error 0 hex
            refine ⟨.emptyTopic i, by rw [hi]; rfl, Or.inr (Or.inr (Or.inr ⟨i, rfl⟩))⟩
    obtain ⟨e, he, hshape⟩ := hval
    refine ⟨e, ?_, hshape⟩
    simp only [createQuiz, he]
  · intro q hq
    simp only [createQuiz] at hq
    cases hv : validateCreateRequest (some req) with
    | error e => rw [hv] at hq; cases hq
    | ok req' =>
      rw [hv] at hq
      (try dsimp only at hq)
      obtain ⟨hb1, hb2⟩ := validateCreateRequest_ok_bounds hv
      cases hd : docindex req'.config.topics (req'.config.questionCount + 5) with
      | error e => rw [hd] at hq; cases hq
      | ok chunks =>
        rw [hd] at hq
        (try dsimp only at hq)
        cases hr : repo ⟨0, req'.config,
            String.intercalate "\n\n=== CHUNK SEPARATOR ===\n\n" chunks, []⟩ with
        | error e => rw [hr] at hq; cases hq
        | ok newID =>
          rw [hr] at hq
          (try dsimp only at hq)
          cases hq
          exact ⟨hb1, hb2⟩

/-- C10, witness: a request for 10 questions is rejected before either
collaborator runs. -/
theorem createQuiz_validation_bounds_witness :
    ∃ e, createQuiz (fun _ _ => .ok []) (fun _ => .ok 7) (some ⟨⟨10, ["x"]⟩⟩) =
        ⟨.error e, false, false⟩ ∧
      (e = .atLeastOneTopic ∨ e = .questionCountNonPositive ∨
        e = .questionCountTooLarge ∨ ∃ i, e = .emptyTopic i) :=
  (createQuiz_validation_bounds (fun _ _ => .ok []) (fun _ => .ok 7)
    ⟨⟨10, ["x"]⟩⟩).1 (by decide)

end Flashcards
